import Mathlib

/-!
Verification of the Caesar-cipher application (`src/main.rs`).

The cipher engine is the Rust function `encrypt` (lines 288-302): it walks the
characters of the input, shifts alphabetic characters within A-Z or a-z using
16-bit integer arithmetic and `rem_euclid(26)`, and copies every other
character through unchanged.  The synchronization layer consists of four druid
`Controller`s (`ConversionController`, `ShiftController`,
`PlaintextController`, `CiphertextController`) and the lens of the shift text
input; each is modelled below as a function from the pre-event state and the
committed new value to the post-event state.
-/

namespace Caesar

/-- Two's-complement wrap into the `i16` range, modelling Rust `i16` addition
and subtraction overflow (release-profile semantics; a debug build would panic
at the same inputs instead of wrapping). -/
def wrap16 (x : Int) : Int := (x + 32768) % 65536 - 32768

/-- Model of Rust's saturating numeric cast `as i16` (applied in the source to
the `f64` field `shift`, whose committed values are whole numbers and are
modelled as `Int` throughout). -/
def toI16 (x : Int) : Int := max (-32768) (min 32767 x)

/-- Model of the Rust standard library predicate `char::is_alphabetic` (the
Unicode `Alphabetic` property), tabulated exactly for code points up to
U+00FF.  Above U+00FF the Rust predicate is true for many more letters; that
part of the table is not modelled and this function returns `false` there, so
it is faithful only on the Latin-1 range.  Every theorem below that assumes a
character non-alphabetic therefore also confines its code point to the
tabulated range, and every concrete character in the proofs lies within it. -/
def isAlphabetic (c : Char) : Bool :=
  (65 ≤ c.toNat && c.toNat ≤ 90) || (97 ≤ c.toNat && c.toNat ≤ 122) ||
  c.toNat == 0xAA || c.toNat == 0xB5 || c.toNat == 0xBA ||
  (0xC0 ≤ c.toNat && c.toNat ≤ 0xD6) || (0xD8 ≤ c.toNat && c.toNat ≤ 0xF6) ||
  (0xF8 ≤ c.toNat && c.toNat ≤ 0xFF)

/-- Model of the Rust standard library predicate `char::is_uppercase` (the
Unicode `Uppercase` property), tabulated exactly for code points up to U+00FF,
matching the tabulated range of `isAlphabetic`; like it, the function is
faithful only on that range and is only relied upon there. -/
def isUppercase (c : Char) : Bool :=
  (65 ≤ c.toNat && c.toNat ≤ 90) || (0xC0 ≤ c.toNat && c.toNat ≤ 0xD6) ||
  (0xD8 ≤ c.toNat && c.toNat ≤ 0xDE)

/-- Per-character body of the loop of `encrypt` (`src/main.rs` lines 290-300).
`c as u8` is `c.toNat % 256`; the `i16` sums wrap via `wrap16`; `rem_euclid`
is `Int` Euclidean `%`; the final `as u8 as char` chain is `Char.ofNat` (the
shifted value lies in `[65, 90]` or `[97, 122]`, so no truncation occurs
there). -/
def encryptChar (shift : Int) (c : Char) : Char :=
  if isAlphabetic c then
    if isUppercase c then
      Char.ofNat (65 + (wrap16 (((c.toNat % 256 : Nat) : Int) + shift - 65)) % 26).toNat
    else
      Char.ofNat (97 + (wrap16 (((c.toNat % 256 : Nat) : Int) + shift - 97)) % 26).toNat
  else c

/-- The cipher engine `encrypt` (`src/main.rs` lines 288-302).  Strings are
modelled as lists of Unicode scalar values. -/
def encrypt (plaintext : List Char) (shift : Int) : List Char :=
  plaintext.map (encryptChar shift)

/-- UTF-8 byte length of a string, modelling Rust `String::len` (used by the
length comparisons in `PlaintextController` and `CiphertextController`). -/
def utf8Length (s : List Char) : Nat := (s.map Char.utf8Size).sum

/-- The `ConversionType` enum (`src/main.rs` lines 31-35). -/
inductive ConversionType
  | Encryption
  | Decryption
deriving DecidableEq

/-- The `AppData` record (`src/main.rs` lines 37-44).  `current_view : u32` is
modelled as `Nat` (the program only stores 0 and 1); `shift : f64` is modelled
as `Int` (committed values are whole numbers; the `as i16` casts applied to it
are modelled by `toI16`); the `Arc<String>` fields are lists of characters. -/
structure AppData where
  current_view : Nat
  conversion : ConversionType
  shift : Int
  plaintext : List Char
  ciphertext : List Char
deriving DecidableEq

/-- The initial state built in `main` (`src/main.rs` lines 17-23). -/
def initialAppData : AppData :=
  { current_view := 0
    conversion := ConversionType.Encryption
    shift := 6
    plaintext := []
    ciphertext := [] }

/-- One pass of `ConversionController::event` (`src/main.rs` lines 48-60) on a
committed new direction value: the child widget writes `newConversion` into the
state, then the controller compares against the captured old value and updates
only `current_view`. -/
def conversionControllerEvent (data : AppData) (newConversion : ConversionType) :
    AppData :=
  let old_data := data.conversion
  let d := { data with conversion := newConversion }
  if d.conversion ≠ old_data then
    if d.conversion = ConversionType.Encryption then
      { d with current_view := 0 }
    else
      { d with current_view := 1 }
  else d

/-- One pass of `ShiftController::event` (`src/main.rs` lines 64-76) on a
committed new shift value (the controller is attached to the stepper): if the
shift changed, the field derived per the current direction is recomputed.  In
the source the decryption branch passes `-data.shift as i16`, which parses as
`-(data.shift as i16)`. -/
def shiftControllerEvent (data : AppData) (newShift : Int) : AppData :=
  let old_data := data.shift
  let d := { data with shift := newShift }
  if d.shift ≠ old_data then
    if d.conversion = ConversionType.Encryption then
      { d with ciphertext := encrypt d.plaintext (toI16 d.shift) }
    else
      { d with plaintext := encrypt d.ciphertext (-(toI16 d.shift)) }
  else d

/-- One pass of `PlaintextController::event` (`src/main.rs` lines 80-90) on a
committed plaintext edit: the old plaintext is captured, the child applies the
edit, and then either the ciphertext is recomputed from `old_data` (the
pre-edit plaintext, exactly as in line 85) or the plaintext edit is reverted.
The length comparison is on UTF-8 byte lengths (`String::len`). -/
def plaintextControllerEvent (data : AppData) (newPlaintext : List Char) :
    AppData :=
  let old_data := data.plaintext
  let d := { data with plaintext := newPlaintext }
  if d.conversion = ConversionType.Encryption ∧
      utf8Length d.plaintext ≠ utf8Length d.ciphertext then
    { d with ciphertext := encrypt old_data (toI16 d.shift) }
  else
    { d with plaintext := old_data }

/-- One pass of `CiphertextController::event` (`src/main.rs` lines 94-104) on a
committed ciphertext edit, symmetric to `plaintextControllerEvent`. -/
def ciphertextControllerEvent (data : AppData) (newCiphertext : List Char) :
    AppData :=
  let old_data := data.ciphertext
  let d := { data with ciphertext := newCiphertext }
  if d.conversion = ConversionType.Decryption ∧
      utf8Length d.ciphertext ≠ utf8Length d.plaintext then
    { d with plaintext := encrypt old_data (-(toI16 d.shift)) }
  else
    { d with ciphertext := old_data }

/-- The put direction of the lens of the shift text input (`src/main.rs` line
116, the closure `|x, y| *x = y.unwrap_or(5.0)`).  The druid `Parse` widget
wrapping the text box hands the lens `some v` when the current text parses as
a number and `none` when it does not. -/
def shiftInputPut (data : AppData) (parsed : Option Int) : AppData :=
  { data with shift := parsed.getD 5 }

theorem wrap16_eq_self (x : Int) (h1 : -32768 ≤ x) (h2 : x < 32768) :
    wrap16 x = x := by
  unfold wrap16
  omega

theorem toNat_ofNat_valid (n : Nat) (h : n < 55296) : (Char.ofNat n).toNat = n := by
  rw [Char.ofNat, dif_pos (Or.inl h)]
  rfl

theorem encryptChar_upper (shift : Int) (c : Char)
    (h1 : 65 ≤ c.toNat) (h2 : c.toNat ≤ 90)
    (hs1 : -32768 ≤ shift) (hs2 : shift ≤ 32742) :
    encryptChar shift c =
      Char.ofNat (65 + ((((c.toNat : Int)) - 65 + shift) % 26).toNat) := by
  have halpha : isAlphabetic c = true := by
    simp [isAlphabetic]
    omega
  have hupper : isUppercase c = true := by
    simp [isUppercase]
    omega
  rw [encryptChar, if_pos halpha, if_pos hupper, Nat.mod_eq_of_lt (by omega),
    wrap16_eq_self _ (by omega) (by omega)]
  congr 1
  omega

theorem encryptChar_lower (shift : Int) (c : Char)
    (h1 : 97 ≤ c.toNat) (h2 : c.toNat ≤ 122)
    (hs1 : -32768 ≤ shift) (hs2 : shift ≤ 32742) :
    encryptChar shift c =
      Char.ofNat (97 + ((((c.toNat : Int)) - 97 + shift) % 26).toNat) := by
  have halpha : isAlphabetic c = true := by
    simp [isAlphabetic]
    omega
  have hupper : isUppercase c = false := by
    simp [isUppercase]
    omega
  rw [encryptChar, if_pos halpha, if_neg (by simp [hupper]), Nat.mod_eq_of_lt (by omega),
    wrap16_eq_self _ (by omega) (by omega)]
  congr 1
  omega

theorem encryptChar_not_alphabetic (shift : Int) (c : Char)
    (h : isAlphabetic c = false) : encryptChar shift c = c := by
  simp [encryptChar, h]

theorem emod_sub_roundtrip (c0 shift : Int) (h1 : 0 ≤ c0) (h2 : c0 < 26) :
    ((c0 + shift) % 26 - shift) % 26 = c0 := by
  conv_lhs => rw [Int.sub_emod, Int.emod_emod_of_dvd _ dvd_rfl, ← Int.sub_emod,
    add_sub_cancel_right]
  exact Int.emod_eq_of_lt h1 h2

theorem encryptChar_roundtrip (shift : Int) (c : Char)
    (hs1 : -32742 ≤ shift) (hs2 : shift ≤ 32742)
    (hc : (65 ≤ c.toNat ∧ c.toNat ≤ 90) ∨ (97 ≤ c.toNat ∧ c.toNat ≤ 122) ∨
      isAlphabetic c = false) :
    encryptChar (-shift) (encryptChar shift c) = c := by
  rcases hc with ⟨h1, h2⟩ | ⟨h1, h2⟩ | h
  · rw [encryptChar_upper shift c h1 h2 (by omega) (by omega)]
    have hr1 : 0 ≤ ((c.toNat : Int) - 65 + shift) % 26 :=
      Int.emod_nonneg _ (by norm_num)
    have hr2 : ((c.toNat : Int) - 65 + shift) % 26 < 26 :=
      Int.emod_lt_of_pos _ (by norm_num)
    have htn : (Char.ofNat (65 + ((((c.toNat : Int)) - 65 + shift) % 26).toNat)).toNat
        = 65 + ((((c.toNat : Int)) - 65 + shift) % 26).toNat :=
      toNat_ofNat_valid _ (by omega)
    rw [encryptChar_upper (-shift) _ (by omega) (by omega) (by omega) (by omega)]
    rw [htn]
    have harg : ((65 + ((((c.toNat : Int)) - 65 + shift) % 26).toNat : Nat) : Int)
        - 65 + -shift = ((((c.toNat : Int)) - 65) + shift) % 26 - shift := by
      push_cast
      omega
    rw [harg, emod_sub_roundtrip _ _ (by omega) (by omega)]
    have hfin : 65 + (((c.toNat : Int)) - 65).toNat = c.toNat := by omega
    rw [hfin, Char.ofNat_toNat]
  · rw [encryptChar_lower shift c h1 h2 (by omega) (by omega)]
    have hr1 : 0 ≤ ((c.toNat : Int) - 97 + shift) % 26 :=
      Int.emod_nonneg _ (by norm_num)
    have hr2 : ((c.toNat : Int) - 97 + shift) % 26 < 26 :=
      Int.emod_lt_of_pos _ (by norm_num)
    have htn : (Char.ofNat (97 + ((((c.toNat : Int)) - 97 + shift) % 26).toNat)).toNat
        = 97 + ((((c.toNat : Int)) - 97 + shift) % 26).toNat :=
      toNat_ofNat_valid _ (by omega)
    rw [encryptChar_lower (-shift) _ (by omega) (by omega) (by omega) (by omega)]
    rw [htn]
    have harg : ((97 + ((((c.toNat : Int)) - 97 + shift) % 26).toNat : Nat) : Int)
        - 97 + -shift = ((((c.toNat : Int)) - 97) + shift) % 26 - shift := by
      push_cast
      omega
    rw [harg, emod_sub_roundtrip _ _ (by omega) (by omega)]
    have hfin : 97 + (((c.toNat : Int)) - 97).toNat = c.toNat := by omega
    rw [hfin, Char.ofNat_toNat]
  · rw [encryptChar_not_alphabetic shift c h, encryptChar_not_alphabetic _ c h]

/-- Claim C1, counterexample: at the valid `i16` shift 32767 the 16-bit
addition inside `encrypt` overflows, so `cipher("Z", 32767)` is `"Q"` rather
than the letter at position `(pos('Z') + 32767) mod 26`, which is `'G'`. -/
theorem C1_counterexample :
    encrypt ['Z'] 32767 = ['Q'] ∧
    Char.ofNat (65 + ((('Z'.toNat : Int) - 65 + 32767) % 26).toNat) = 'G' ∧
    ('Q' : Char) ≠ 'G' := by decide

/-- Claim C1 (amended): for every input string and every shift `s` with
`-32768 ≤ s ≤ 32742` (the `i16` shifts for which the internal 16-bit
arithmetic cannot overflow; in particular every shift in `[-25, 25]`), the
cipher maps each ASCII uppercase letter at position `i` to the ASCII uppercase
letter at position `(pos(c) + s) mod 26` within A-Z, and each ASCII lowercase
letter likewise within a-z, using Euclidean modulo. -/
theorem C1_ascii_letters_shifted (s : List Char) (shift : Int) (i : Nat) (c : Char)
    (hs1 : -32768 ≤ shift) (hs2 : shift ≤ 32742)
    (hc : s[i]? = some c)
    (hletter : (65 ≤ c.toNat ∧ c.toNat ≤ 90) ∨ (97 ≤ c.toNat ∧ c.toNat ≤ 122)) :
    (encrypt s shift)[i]? = some (Char.ofNat
      ((if c.toNat ≤ 90 then 65 else 97) +
        (((c.toNat : Int) - (if c.toNat ≤ 90 then (65 : Int) else 97) + shift)
          % 26).toNat)) := by
  have hmap : (encrypt s shift)[i]? = some (encryptChar shift c) := by
    simp [encrypt, List.getElem?_map, hc]
  rw [hmap]
  rcases hletter with ⟨h1, h2⟩ | ⟨h1, h2⟩
  · rw [encryptChar_upper shift c h1 h2 hs1 hs2, if_pos h2, if_pos h2]
  · rw [encryptChar_lower shift c h1 h2 hs1 hs2, if_neg (by omega), if_neg (by omega)]

/-- Claim C1, witness: `cipher("Z", 1) = "A"` via `C1_ascii_letters_shifted`. -/
theorem C1_ascii_letters_shifted_witness : (encrypt ['Z'] 1)[0]? = some 'A' := by
  have h := C1_ascii_letters_shifted ['Z'] 1 0 'Z' (by decide) (by decide)
    (by decide) (by decide)
  exact h.trans (by decide)

/-- Claim C2, counterexample: the round trip fails on non-ASCII text, because
`encrypt` truncates a Unicode letter to its low byte and shifts it into ASCII
irreversibly: `cipher(cipher("É", 1), -1) = "G" ≠ "É"`. -/
theorem C2_counterexample :
    encrypt (encrypt ['É'] 1) (-1) = ['G'] ∧ (['G'] : List Char) ≠ ['É'] := by decide

/-- Claim C2 (amended): for every text all of whose characters are ASCII
letters or non-alphabetic Latin-1 characters (code point at most U+00FF, the
range on which the alphabetic classifier is tabulated exactly), and every
shift `s` with `-32742 ≤ s ≤ 32742` (in particular every `s` in `[1, 25]`),
`cipher(cipher(text, s), -s) = text`. -/
theorem C2_roundtrip (s : List Char) (shift : Int)
    (hs1 : -32742 ≤ shift) (hs2 : shift ≤ 32742)
    (hchars : ∀ c ∈ s, (65 ≤ c.toNat ∧ c.toNat ≤ 90) ∨
      (97 ≤ c.toNat ∧ c.toNat ≤ 122) ∨
      (isAlphabetic c = false ∧ c.toNat ≤ 0xFF)) :
    encrypt (encrypt s shift) (-shift) = s := by
  induction s with
  | nil => rfl
  | cons c cs ih =>
    have hc := (hchars c (List.mem_cons_self c cs)).imp id (Or.imp id And.left)
    have ih2 := ih (fun x hx => hchars x (List.mem_cons_of_mem c hx))
    calc encrypt (encrypt (c :: cs) shift) (-shift)
        = encryptChar (-shift) (encryptChar shift c) ::
            encrypt (encrypt cs shift) (-shift) := rfl
      _ = c :: cs := by rw [encryptChar_roundtrip shift c hs1 hs2 hc, ih2]

/-- Claim C2, witness: the round trip at `("Hello, World!", 3)` via
`C2_roundtrip`. -/
theorem C2_roundtrip_witness :
    encrypt (encrypt "Hello, World!".toList 3) (-3) = "Hello, World!".toList :=
  C2_roundtrip _ 3 (by decide) (by decide) (by decide)

/-- Claim C3, counterexample: `'É'` is not an ASCII letter, yet
`cipher("É", 1) = "H"`: the code classifies it as alphabetic (Unicode), takes
its low byte, and shifts it, so it does not appear unchanged. -/
theorem C3_counterexample :
    Char.isAlpha 'É' = false ∧ encrypt ['É'] 1 = ['H'] ∧ ('H' : Char) ≠ 'É' := by
  decide

/-- Claim C3 (amended): every non-alphabetic character in the Latin-1 range
(code point at most U+00FF, the range on which the alphabetic classifier is
tabulated exactly) — in particular every ASCII digit, punctuation and
whitespace character — appears unchanged, at the same position, in the output
of `encrypt`; non-ASCII alphabetic letters, contrary to the claim, are
transformed. -/
theorem C3_non_alphabetic_unchanged (s : List Char) (shift : Int) (i : Nat) (c : Char)
    (hc : s[i]? = some c) (_hlatin : c.toNat ≤ 0xFF) (h : isAlphabetic c = false) :
    (encrypt s shift)[i]? = some c := by
  simp [encrypt, List.getElem?_map, hc, encryptChar_not_alphabetic shift c h]

/-- Claim C3, witness: the digit `'1'` is unchanged by `encrypt` at shift 5,
via `C3_non_alphabetic_unchanged`. -/
theorem C3_non_alphabetic_unchanged_witness : (encrypt ['1'] 5)[0]? = some '1' :=
  C3_non_alphabetic_unchanged ['1'] 5 0 '1' (by decide) (by decide) (by decide)

/-- Claim C4, evaluation at the failing input: starting from the initial state
(direction Encrypt, shift 6, both texts empty) and committing the plaintext
edit `"a"`, the controller re-encrypts the pre-edit plaintext (line 85 of the
source encrypts `old_data`), so afterwards the direction is Encrypt but the
ciphertext is `""`, not `cipher("a", 6) = "g"`: the consistency invariant does
not hold after the committed edit. -/
theorem C4_invariant_broken_after_plaintext_edit :
    (plaintextControllerEvent initialAppData ['a']).conversion =
      ConversionType.Encryption ∧
    (plaintextControllerEvent initialAppData ['a']).plaintext = ['a'] ∧
    (plaintextControllerEvent initialAppData ['a']).shift = 6 ∧
    (plaintextControllerEvent initialAppData ['a']).ciphertext ≠
      encrypt (plaintextControllerEvent initialAppData ['a']).plaintext
        (toI16 (plaintextControllerEvent initialAppData ['a']).shift) := by decide

/-- Claim C5, evaluation at the failing input: with direction Encrypt,
shift 6, plaintext `"abc"`, ciphertext `"ghi"`, committing the plaintext edit
`"xyz"` (same byte length as the ciphertext) makes the controller revert the
plaintext instead of accepting the edit, even though the direction is Encrypt;
the claimed behavior would set the ciphertext to `cipher("xyz", 6) = "def"`. -/
theorem C5_plaintext_edit_rejected_in_encrypt :
    plaintextControllerEvent
        ⟨0, ConversionType.Encryption, 6, "abc".toList, "ghi".toList⟩
        "xyz".toList =
      ⟨0, ConversionType.Encryption, 6, "abc".toList, "ghi".toList⟩ ∧
    encrypt "xyz".toList (toI16 6) = "def".toList := by decide

/-- Claim C6: whenever a ciphertext edit is committed while the direction is
Encrypt, `CiphertextController` leaves the plaintext unchanged and reverts the
ciphertext to its exact pre-edit value, leaving the whole state exactly as it
was. -/
theorem C6_ciphertext_edit_reverted_in_encrypt (d : AppData)
    (newCiphertext : List Char)
    (h : d.conversion = ConversionType.Encryption) :
    ciphertextControllerEvent d newCiphertext = d := by
  cases d
  subst h
  simp [ciphertextControllerEvent]

/-- Claim C6, witness: with direction Encrypt, shift 6, plaintext `"abc"`,
ciphertext `"ghi" = cipher("abc", 6)`, a committed ciphertext edit to `"zzz"`
leaves the state unchanged, via `C6_ciphertext_edit_reverted_in_encrypt`. -/
theorem C6_ciphertext_edit_reverted_witness :
    ciphertextControllerEvent
        ⟨0, ConversionType.Encryption, 6, "abc".toList, "ghi".toList⟩
        "zzz".toList =
      ⟨0, ConversionType.Encryption, 6, "abc".toList, "ghi".toList⟩ ∧
    encrypt "abc".toList (toI16 6) = "ghi".toList :=
  ⟨C6_ciphertext_edit_reverted_in_encrypt _ _ rfl, by decide⟩

/-- Claim C7: for every state and every committed shift change to an integer
in `[1, 25]` different from the current shift, `ShiftController` recomputes
the derived field with the new shift — ciphertext from plaintext when the
direction is Encrypt, plaintext from ciphertext with the negated shift when it
is Decrypt — leaving the other text field unchanged. -/
theorem C7_shift_change_recomputes (d : AppData) (newShift : Int)
    (h1 : 1 ≤ newShift) (h2 : newShift ≤ 25) (h3 : newShift ≠ d.shift) :
    shiftControllerEvent d newShift =
      if d.conversion = ConversionType.Encryption then
        { d with shift := newShift,
                 ciphertext := encrypt d.plaintext newShift }
      else
        { d with shift := newShift,
                 plaintext := encrypt d.ciphertext (-newShift) } := by
  have ht : toI16 newShift = newShift := by
    unfold toI16
    omega
  cases d
  simp only [shiftControllerEvent, ht]
  split
  · split <;> simp_all [ht]
  · simp_all

/-- Claim C7, witness: changing the shift from 6 to 10 with direction Encrypt
and plaintext `"abc"` yields ciphertext `"klm"` and leaves the plaintext
untouched, via `C7_shift_change_recomputes`. -/
theorem C7_shift_change_recomputes_witness :
    shiftControllerEvent
        ⟨0, ConversionType.Encryption, 6, "abc".toList, "ghi".toList⟩ 10 =
      ⟨0, ConversionType.Encryption, 10, "abc".toList, "klm".toList⟩ := by
  have h := C7_shift_change_recomputes
    ⟨0, ConversionType.Encryption, 6, "abc".toList, "ghi".toList⟩ 10
    (by decide) (by decide) (by decide)
  exact h.trans (by decide)

/-- Claim C8: processing a direction change event leaves the plaintext,
ciphertext and shift fields exactly unchanged (`ConversionController` only
updates `current_view`). -/
theorem C8_direction_change_preserves_fields (d : AppData)
    (newConversion : ConversionType) :
    (conversionControllerEvent d newConversion).plaintext = d.plaintext ∧
    (conversionControllerEvent d newConversion).ciphertext = d.ciphertext ∧
    (conversionControllerEvent d newConversion).shift = d.shift := by
  cases d
  simp only [conversionControllerEvent]
  split
  · split <;> exact ⟨rfl, rfl, rfl⟩
  · exact ⟨rfl, rfl, rfl⟩

/-- Claim C9, counterexample: with the shift at its initial value 6, a
malformed entry in the shift input (the `Parse` widget yields `none`) does
commit a new shift value: the lens writes the fallback 5, so the prior valid
value 6 is not retained. -/
theorem C9_counterexample :
    shiftInputPut ⟨0, ConversionType.Encryption, 6, [], []⟩ none =
      ⟨0, ConversionType.Encryption, 5, [], []⟩ ∧ (5 : Int) ≠ 6 := by decide

/-- Claim C9 (amended): when malformed (non-numeric) text is entered in the
shift input, the shift field does not retain its prior value; the lens commits
the fallback value 5 (`unwrap_or(5.0)` in line 116), regardless of the prior
shift. -/
theorem C9_malformed_input_commits_fallback (d : AppData) :
    shiftInputPut d none = { d with shift := 5 } := by
  cases d
  rfl

/-- Claim C10: for every input string and every shift, the output of `encrypt`
contains exactly as many characters as the input (one output character is
produced per input character, in order). -/
theorem C10_length_preserved (s : List Char) (shift : Int) :
    (encrypt s shift).length = s.length := by
  simp [encrypt]

end Caesar
